import Mathlib

/-!
Verification of the SRFT reliable-file-transfer repository.

We shallowly embed the Python sources in Lean:
bytes are naturals below 256, byte strings are `List Nat`,
Python exceptions are modelled explicitly (`Option` for functions whose
callers only distinguish success from failure, a dedicated result type
where an uncaught exception must be distinguished from an explicit
`return None`), and stateful classes become structures with explicit
state-passing functions.
-/

namespace SRFT

/-! ## Constants (src/common/constants.py) -/

def MAX_PAYLOAD_SIZE : Nat := 1400

def CUSTOM_HEADER_SIZE : Nat := 15

def WINDOW_SIZE : Nat := 10

def MAX_RETRIES : Nat := 10

def FLAG_SYN : Nat := 0x01

def FLAG_ACK : Nat := 0x02

def FLAG_FIN : Nat := 0x04

def FLAG_DATA : Nat := 0x08

def FLAG_SYN_ACK : Nat := FLAG_SYN ||| FLAG_ACK

def FLAG_FIN_DATA : Nat := FLAG_FIN ||| FLAG_DATA

def FLAG_FIN_ACK : Nat := FLAG_FIN ||| FLAG_ACK

/-! ## struct.pack primitives

`struct.pack` with format `!IIHHBH` writes big-endian fields; it raises
`struct.error` when a value is out of range for its field, which we model
with `Option`. -/

def pack8 (n : Nat) : List Nat := [n % 256]

def pack16 (n : Nat) : List Nat := [n / 256 % 256, n % 256]

def pack32 (n : Nat) : List Nat :=
  [n / 16777216 % 256, n / 65536 % 256, n / 256 % 256, n % 256]

/-- `struct.pack('!IIHHBH', seq, ack, ck, plen, flags, conn)`:
range-check every field, then emit the 15 header bytes big-endian. -/
def packHeader (seq ack ck plen flags conn : Nat) : Option (List Nat) :=
  if seq < 4294967296 ∧ ack < 4294967296 ∧ ck < 65536 ∧ plen < 65536 ∧
      flags < 256 ∧ conn < 65536 then
    some (pack32 seq ++ pack32 ack ++ pack16 ck ++ pack16 plen ++
      pack8 flags ++ pack16 conn)
  else
    none

/-! ## Checksum (src/common/checksum.py) -/

/-- One step of RFC 1071 one's-complement addition:
`checksum += word; checksum = (checksum & 0xFFFF) + (checksum >> 16)`. -/
def step16 (c w : Nat) : Nat :=
  ((c + w) % 65536) + ((c + w) / 65536)

/-- The loop of `compute_checksum`: fold 16-bit big-endian words
(an odd trailing byte is the high half of its word). -/
def checksumWords : Nat → List Nat → Nat
  | c, [] => c
  | c, [a] => step16 c (a * 256)
  | c, a :: b :: rest => checksumWords (step16 c (a * 256 + b)) rest

/-- `compute_checksum(data)`: loop, then `~checksum & 0xFFFF`
(for a non-negative Python int `c`, `~c & 0xFFFF = 65535 - c % 65536`). -/
def compute_checksum (data : List Nat) : Nat :=
  65535 - (checksumWords 0 data) % 65536

/-- `verify_checksum(data, expected_checksum)`. -/
def verify_checksum (data : List Nat) (expected_checksum : Nat) : Bool :=
  compute_checksum data == expected_checksum

/-! ## Packet codec (src/common/packet.py) -/

/-- `encode_packet`: `none` models an uncaught exception
(`ValueError` for an oversized payload, `struct.error` for an
out-of-range header field). -/
def encode_packet (seq_num ack_num flags : Nat) (payload : List Nat)
    (conn_id : Nat) : Option (List Nat) :=
  if payload.length > MAX_PAYLOAD_SIZE then
    none
  else
    match packHeader seq_num ack_num 0 payload.length flags conn_id with
    | none => none
    | some header_no_checksum =>
      let checksum := compute_checksum (header_no_checksum ++ payload)
      match packHeader seq_num ack_num checksum payload.length flags conn_id with
      | none => none
      | some final_header => some (final_header ++ payload)

/-- The record `decode_packet` would return. -/
structure PacketRec where
  seq_num : Nat
  ack_num : Nat
  checksum : Nat
  payload_length : Nat
  flags : Nat
  conn_id : Nat
  payload : List Nat
deriving DecidableEq, Repr

/-- Outcome of `decode_packet`: a returned record, an explicit
`return None`, or an uncaught exception escaping the function. -/
inductive DecodeResult where
  | ok (r : PacketRec)
  | reject
  | error
deriving DecidableEq, Repr

/-- `decode_packet(raw_data)` as written in the source.

After the length guard, `struct.unpack('!IIHHBH', raw_data[:15])` always
succeeds (the slice has exactly 15 bytes), so the `except struct.error`
branch is dead.  The next line is

    payload = raw_data[CUSTOM_HEADER_SIZE]

which INDEXES byte 15 instead of slicing `raw_data[15:]`: when the input
is exactly 15 bytes long this raises `IndexError`; otherwise `payload`
is bound to an `int` and the following `len(payload)` raises `TypeError`.
Neither exception is caught, so the function never reaches its checksum
check or its `return` of a record. -/
def decode_packet (raw_data : List Nat) : DecodeResult :=
  if raw_data.length < CUSTOM_HEADER_SIZE then
    DecodeResult.reject
  else
    match raw_data.get? CUSTOM_HEADER_SIZE with
    | none => DecodeResult.error
    | some _ => DecodeResult.error

/-! ## Raw socket framing (src/common/rawsocket.py) -/

/-- `struct.pack` with a format of `count` copies of `!H`:
`struct.error` (modelled `none`) when the number of supplied items
differs from `count` or a value does not fit in 16 bits. -/
def structPackWords (count : Nat) (vals : List Nat) : Option (List Nat) :=
  if vals.length ≠ count then
    none
  else if vals.any (fun v => decide (65536 ≤ v)) then
    none
  else
    some (vals.map pack16).flatten

/-- `build_udp_header(src_port, dst_port, payload_length)`: the source
calls `struct.pack('!HHH', src_port, dst_port, udp_length, udp_checksum)`,
a three-field format applied to four items. -/
def build_udp_header (src_port dst_port payload_length : Nat) : Option (List Nat) :=
  let udp_length := 8 + payload_length
  let udp_checksum := 0
  structPackWords 3 [src_port, dst_port, udp_length, udp_checksum]

/-! ## Client receive-side state (src/client/client_state.py)

`buffer` is a Python dict from chunk index to payload; we embed it as an
association list (insertion appends a fresh key, `pop` removes a key). -/

structure ClientState where
  expected_seq : Nat := 0
  buffer : List (Nat × List Nat) := []
  fin_seq : Option Nat := none
  p_total : Nat := 0
  p_valid : Nat := 0
  p_invalid : Nat := 0
  p_duplicate : Nat := 0
  chunks_written : Nat := 0
deriving DecidableEq, Repr

/-- `seq in self.buffer`. -/
def bufMem (k : Nat) (b : List (Nat × List Nat)) : Bool :=
  b.any (fun e => e.1 == k)

/-- `self.buffer[seq]` lookup. -/
def bufGet (k : Nat) (b : List (Nat × List Nat)) : Option (List Nat) :=
  match b.find? (fun e => e.1 == k) with
  | some e => some e.2
  | none => none

/-- `self.buffer[seq] = payload` for a key not yet present. -/
def bufInsert (k : Nat) (v : List Nat) (b : List (Nat × List Nat)) :
    List (Nat × List Nat) :=
  b ++ [(k, v)]

/-- `self.buffer.pop(seq)`'s effect on the mapping. -/
def bufErase (k : Nat) (b : List (Nat × List Nat)) : List (Nat × List Nat) :=
  b.filter (fun e => e.1 != k)

/-- `ClientState.store_chunk(seq, payload)`. -/
def ClientState.store_chunk (st : ClientState) (seq : Nat) (payload : List Nat) :
    ClientState :=
  if payload.length > MAX_PAYLOAD_SIZE then
    st
  else if seq > 1000000 then
    st
  else if seq < st.expected_seq then
    { st with p_duplicate := st.p_duplicate + 1 }
  else if bufMem seq st.buffer then
    { st with p_duplicate := st.p_duplicate + 1 }
  else
    { st with buffer := bufInsert seq payload st.buffer }

/-- The state mutations of one `write_chunk` loop iteration:
`self.buffer.pop(self.expected_seq)`, `self.expected_seq += 1`,
`self.chunks_written += 1`. -/
def drainStep (st : ClientState) : ClientState :=
  { st with buffer := bufErase st.expected_seq st.buffer,
            expected_seq := st.expected_seq + 1,
            chunks_written := st.chunks_written + 1 }

/-- The `while self.expected_seq in self.buffer` loop of `write_chunk`,
with explicit fuel; each iteration writes one payload to the sink and
removes its key, so `buffer.length` steps of fuel always suffice.
Returns the final state and the payloads written, in order. -/
def writeLoop : Nat → ClientState → ClientState × List (List Nat)
  | 0, st => (st, [])
  | fuel + 1, st =>
    match bufGet st.expected_seq st.buffer with
    | none => (st, [])
    | some payload =>
      let r := writeLoop fuel (drainStep st)
      (r.1, payload :: r.2)

/-- `ClientState.write_chunk(fp)`: returns the new state together with
the list of payloads written to `fp`. -/
def ClientState.write_chunk (st : ClientState) : ClientState × List (List Nat) :=
  writeLoop st.buffer.length st

/-- One call against the receiver state: `store_chunk` or `write_chunk`. -/
inductive ClientOp where
  | store (seq : Nat) (payload : List Nat)
  | write
deriving DecidableEq, Repr

/-- Run a sequence of calls, collecting everything written to the sink. -/
def runOps : ClientState → List ClientOp → ClientState × List (List Nat)
  | st, [] => (st, [])
  | st, ClientOp.store seq payload :: ops => runOps (st.store_chunk seq payload) ops
  | st, ClientOp.write :: ops =>
    let r := st.write_chunk
    let rest := runOps r.1 ops
    (rest.1, r.2 ++ rest.2)

/-! ## Client receive loop (src/client/receiver.py)

One loop iteration consumes the result of `receive_packet`, which is
either a timeout (`res is None`), a datagram whose frame failed to
decode (`packet is None`), or a decoded frame.  The loop body updates
the `ClientState`, emits ACK / FIN_ACK frames (all with
`ack_num = state.expected_seq` at the moment of sending) and decides
whether to `break`. -/

inductive RInput where
  | timeout
  | corrupt
  | pkt (p : PacketRec)
deriving DecidableEq, Repr

structure RecvLoopState where
  state : ClientState
  consecutive_timeouts : Nat
deriving DecidableEq, Repr

/-- The `if flags & FLAG_DATA` block of the `receive_file` loop body,
entered with the counters already updated in `st1`: store the chunk,
record `fin_seq` on a FIN|DATA frame, drain the buffer to the file,
send an ACK carrying `expected_seq`, and — once `fin_seq` is set and
reached — send FIN_ACK three more times and break.  Returns the next
loop state, the `ack_num` values sent (in order) and the break flag. -/
def recvData (p : PacketRec) (st1 : ClientState) :
    RecvLoopState × List Nat × Bool :=
  let st2 := st1.store_chunk p.seq_num p.payload
  let st3 := if p.flags &&& FLAG_FIN_DATA = FLAG_FIN_DATA then
      { st2 with fin_seq := some p.seq_num }
    else st2
  let st4 := (st3.write_chunk).1
  match st4.fin_seq with
  | some f =>
    if st4.expected_seq = f + 1 then
      ({ state := st4, consecutive_timeouts := 0 },
       [st4.expected_seq, st4.expected_seq, st4.expected_seq,
        st4.expected_seq], true)
    else
      ({ state := st4, consecutive_timeouts := 0 }, [st4.expected_seq], false)
  | none =>
    ({ state := st4, consecutive_timeouts := 0 }, [st4.expected_seq], false)

/-- One iteration of the `receive_file` loop: returns the next loop
state, the `ack_num` values of the frames sent during the iteration
(in order), and whether the loop breaks. -/
def recvStep (conn_id : Nat) (ls : RecvLoopState) (inp : RInput) :
    RecvLoopState × List Nat × Bool :=
  match inp with
  | RInput.timeout =>
    let c := ls.consecutive_timeouts + 1
    ({ ls with consecutive_timeouts := c }, [], c ≥ 10)
  | RInput.corrupt =>
    let st := { ls.state with p_total := ls.state.p_total + 1 }
    ({ state := { st with p_invalid := st.p_invalid + 1 },
       consecutive_timeouts := 0 }, [], false)
  | RInput.pkt p =>
    let st0 := { ls.state with p_total := ls.state.p_total + 1 }
    if p.conn_id ≠ conn_id then
      ({ state := { st0 with p_invalid := st0.p_invalid + 1 },
         consecutive_timeouts := 0 }, [], false)
    else
      let st1 := { st0 with p_valid := st0.p_valid + 1 }
      if p.flags &&& FLAG_DATA ≠ 0 then
        recvData p st1
      else
        ({ state := st1, consecutive_timeouts := 0 }, [], false)

/-- The `receive_file` loop over a finite stream of receive results,
collecting every `ack_num` it sends. -/
def runReceive (conn_id : Nat) : RecvLoopState → List RInput → RecvLoopState × List Nat
  | ls, [] => (ls, [])
  | ls, inp :: rest =>
    let r := recvStep conn_id ls inp
    if r.2.2 then
      (r.1, r.2.1)
    else
      let rr := runReceive conn_id r.1 rest
      (rr.1, r.2.1 ++ rr.2)

/-! ## Client handshake wait loop (src/client/request_handler.py)

The inner `while time.time() < deadline` loop of `send_syn_request`,
over a finite stream of `receive_packet` results: returns `true` as
soon as a decoded frame has `flags == FLAG_SYN_ACK`.  The function's
`conn_id` parameter is in scope but the loop never consults it. -/

def synWaitLoop (conn_id : Nat) : List RInput → Bool
  | [] => false
  | RInput.timeout :: rest => synWaitLoop conn_id rest
  | RInput.corrupt :: rest => synWaitLoop conn_id rest
  | RInput.pkt p :: rest =>
    if p.flags == FLAG_SYN_ACK then true else synWaitLoop conn_id rest

/-! ## Server retransmit queue (src/server/retransmit_queue.py)

`_Item` is a mutable record shared between the `items` dict and the
heap; its `deadline` field is mutated only while the item is off the
heap, so we keep the deadline snapshot inside the heap entry and the
rest of the record in the dict.  The heap is embedded as a list kept
sorted by deadline (`heapq` pops a minimum-deadline entry; the verified
properties do not depend on how ties are broken).  Transmissions
(`sock.sendto(cur.payload, cur.addr)`) are collected as
(key, payload) events; time.time() values become explicit `now`
arguments. -/

structure RtxItem where
  payload : List Nat
  retries : Nat
deriving DecidableEq, Repr

structure RetransmitQueue where
  rto : Nat
  max_retries : Nat
  heap : List (Nat × String)
  items : List (String × RtxItem)
deriving DecidableEq, Repr

/-- `heapq.heappush`: insert keeping the list sorted by deadline. -/
def heapPush (d : Nat) (k : String) : List (Nat × String) → List (Nat × String)
  | [] => [(d, k)]
  | e :: rest => if e.1 ≤ d then e :: heapPush d k rest else (d, k) :: e :: rest

/-- `self.items.get(key)`. -/
def itemsGet (k : String) (its : List (String × RtxItem)) : Option RtxItem :=
  match its.find? (fun e => e.1 == k) with
  | some e => some e.2
  | none => none

/-- `self.items[key] = item` as a mapping update: drop any old binding
of `key` and bind it to `item`. -/
def itemsSet (k : String) (v : RtxItem) (its : List (String × RtxItem)) :
    List (String × RtxItem) :=
  its.filter (fun e => e.1 != k) ++ [(k, v)]

/-- `self.items.pop(key, None)`'s effect on the mapping. -/
def itemsPop (k : String) (its : List (String × RtxItem)) :
    List (String × RtxItem) :=
  its.filter (fun e => e.1 != k)

/-- `RetransmitQueue.add(key, payload, addr)` at time `now`. -/
def RetransmitQueue.add (q : RetransmitQueue) (now : Nat) (key : String)
    (payload : List Nat) : RetransmitQueue :=
  { q with items := itemsSet key { payload := payload, retries := 0 } q.items,
           heap := heapPush (now + q.rto) key q.heap }

/-- `RetransmitQueue.ack(key)`: remove logically; the heap entry is
skipped later. -/
def RetransmitQueue.ack (q : RetransmitQueue) (key : String) : RetransmitQueue :=
  { q with items := itemsPop key q.items }

/-- The `while self.heap and self.heap[0].deadline <= now` loop of
`tick`, with explicit fuel: returns the final heap, the final items map
and the (key, payload) retransmissions in order. -/
def tickLoop (max_retries rto : Nat) :
    Nat → Nat → List (Nat × String) → List (String × RtxItem) →
    List (Nat × String) × List (String × RtxItem) × List (String × List Nat)
  | 0, _, heap, items => (heap, items, [])
  | fuel + 1, now, heap, items =>
    match heap with
    | [] => (heap, items, [])
    | (d, k) :: heapRest =>
      if d ≤ now then
        match itemsGet k items with
        | none => tickLoop max_retries rto fuel now heapRest items
        | some cur =>
          if cur.retries ≥ max_retries then
            tickLoop max_retries rto fuel now heapRest (itemsPop k items)
          else
            let items1 := itemsSet k { cur with retries := cur.retries + 1 } items
            let heap1 := heapPush (now + rto) k heapRest
            let r := tickLoop max_retries rto fuel now heap1 items1
            (r.1, r.2.1, (k, cur.payload) :: r.2.2)
      else
        (heap, items, [])

/-- `RetransmitQueue.tick()` at time `now`.  Every loop iteration pops
one heap entry; entries re-pushed during the loop carry deadline
`now + rto` and each key can be retransmitted at most
`max_retries + 1` more times before being dropped, so the chosen fuel
is never exhausted. -/
def RetransmitQueue.tick (q : RetransmitQueue) (now : Nat) :
    RetransmitQueue × List (String × List Nat) :=
  let r := tickLoop q.max_retries q.rto (q.heap.length * (q.max_retries + 2) + 1)
    now q.heap q.items
  ({ q with heap := r.1, items := r.2.1 }, r.2.2)

/-- One call against the queue. -/
inductive QOp where
  | add (now : Nat) (key : String) (payload : List Nat)
  | ack (key : String)
  | tick (now : Nat)
deriving DecidableEq, Repr

/-- Run a sequence of queue calls, collecting every retransmission. -/
def runQueue : RetransmitQueue → List QOp → RetransmitQueue × List (String × List Nat)
  | q, [] => (q, [])
  | q, QOp.add now k p :: ops => runQueue (q.add now k p) ops
  | q, QOp.ack k :: ops => runQueue (q.ack k) ops
  | q, QOp.tick now :: ops =>
    let r := q.tick now
    let rest := runQueue r.1 ops
    (rest.1, r.2 ++ rest.2)

/-! ## Predicates and small definitions used by the verification -/

/-- Keys in the buffer stay at or above `expected_seq` and at or below
the 1,000,000 guard. -/
def BufWithin (st : ClientState) : Prop :=
  ∀ e ∈ st.buffer, st.expected_seq ≤ e.1 ∧ e.1 ≤ 1000000

/-- Index `i` has been absorbed by the receiver: either already drained
to the sink (below `expected_seq`) or sitting in the buffer. -/
def covered (st : ClientState) (i : Nat) : Prop :=
  i < st.expected_seq ∨ bufMem i st.buffer = true

/-- The queue as `RetransmitQueue.__init__` builds it. -/
def initQueue (rto max_retries : Nat) : RetransmitQueue :=
  { rto := rto, max_retries := max_retries, heap := [], items := [] }

/-- Does this queue call add key `k`? -/
def isAddOf (k : String) : QOp → Bool
  | QOp.add _ k' _ => k' == k
  | _ => false

/-- Number of retransmissions of key `k` in a send log. -/
def kCount (k : String) (sends : List (String × List Nat)) : Nat :=
  (sends.filter (fun e => e.1 == k)).length

/-- Remaining send budget of key `k` under an items map: how many more
times `tick` may still transmit it. -/
def remBudget (maxr : Nat) (k : String) (its : List (String × RtxItem)) : Nat :=
  match itemsGet k its with
  | some it => maxr - it.retries
  | none => 0

/-- Validity of one receiver call during an N-chunk transfer with
payload table `P`: every `store_chunk` call carries a genuine chunk. -/
def storeOK (N : Nat) (P : Nat → List Nat) : ClientOp → Prop
  | ClientOp.store seq payload => seq < N ∧ payload = P seq
  | ClientOp.write => True

instance (N : Nat) (P : Nat → List Nat) : DecidablePred (storeOK N P) := fun op =>
  match op with
  | ClientOp.store seq payload =>
    inferInstanceAs (Decidable (seq < N ∧ payload = P seq))
  | ClientOp.write => inferInstanceAs (Decidable True)

/-- Reordering-engine invariant for an N-chunk transfer with payload
table `P`: `expected_seq` never passes `N`, and every buffered entry is
a pending genuine chunk with index at or above `expected_seq`. -/
def ReorderInv (N : Nat) (P : Nat → List Nat) (st : ClientState) : Prop :=
  st.expected_seq ≤ N ∧
  ∀ e ∈ st.buffer, st.expected_seq ≤ e.1 ∧ e.1 < N ∧ e.2 = P e.1

/-! # Helper lemmas about the buffer embedding -/

theorem bufMem_eq_true_iff {k : Nat} {b : List (Nat × List Nat)} :
    bufMem k b = true ↔ ∃ v, (k, v) ∈ b := by
  simp only [bufMem, List.any_eq_true, beq_iff_eq]
  constructor
  · rintro ⟨⟨k', v⟩, he, hk⟩
    cases hk
    exact ⟨v, he⟩
  · rintro ⟨v, hv⟩
    exact ⟨(k, v), hv, rfl⟩

theorem bufMem_eq_false_iff {k : Nat} {b : List (Nat × List Nat)} :
    bufMem k b = false ↔ ∀ v, (k, v) ∉ b := by
  rw [← Bool.not_eq_true, bufMem_eq_true_iff]
  push_neg
  rfl

theorem bufGet_eq_none_iff {k : Nat} {b : List (Nat × List Nat)} :
    bufGet k b = none ↔ bufMem k b = false := by
  unfold bufGet
  cases h : b.find? (fun e => e.1 == k) with
  | none =>
    rw [List.find?_eq_none] at h
    simp only [true_iff]
    rw [bufMem_eq_false_iff]
    intro v hv
    exact absurd (by simp : ((k, v).1 == k) = true) (by simpa using h (k, v) hv)
  | some e =>
    have he := List.find?_some h
    have hm := List.mem_of_find?_eq_some h
    constructor
    · intro hc
      exact absurd hc (by simp)
    · intro hf
      rw [bufMem_eq_false_iff] at hf
      have hk : e.1 = k := by simpa using he
      exact absurd (show (k, e.2) ∈ b by rw [← hk]; exact hm) (hf e.2)

theorem bufGet_mem {k : Nat} {v : List Nat} {b : List (Nat × List Nat)}
    (h : bufGet k b = some v) : (k, v) ∈ b := by
  unfold bufGet at h
  cases hf : b.find? (fun e => e.1 == k) with
  | none => rw [hf] at h; cases h
  | some e =>
    rw [hf] at h
    have he : e.1 = k := by simpa using List.find?_some hf
    have hm := List.mem_of_find?_eq_some hf
    cases h
    rw [← he]
    exact hm

theorem mem_bufErase {e : Nat × List Nat} {k : Nat} {b : List (Nat × List Nat)} :
    e ∈ bufErase k b ↔ e ∈ b ∧ e.1 ≠ k := by
  simp [bufErase, List.mem_filter]

theorem mem_bufInsert {e : Nat × List Nat} {k : Nat} {v : List Nat}
    {b : List (Nat × List Nat)} :
    e ∈ bufInsert k v b ↔ e ∈ b ∨ e = (k, v) := by
  simp [bufInsert]

theorem bufErase_length_lt {k : Nat} {v : List Nat} {b : List (Nat × List Nat)}
    (h : bufGet k b = some v) : (bufErase k b).length < b.length := by
  have hm : (k, v) ∈ b := bufGet_mem h
  clear h
  unfold bufErase
  induction b with
  | nil => cases hm
  | cons e rest ih =>
    rcases List.mem_cons.mp hm with he | hrest
    · subst he
      simp only [List.filter, bne_self_eq_false]
      calc (rest.filter (fun e => e.1 != k)).length
          ≤ rest.length := List.length_filter_le _ _
        _ < (((k, v) :: rest)).length := by simp
    · by_cases hek : (e.1 != k) = true
      · simp only [List.filter, hek]
        simpa using Nat.succ_lt_succ (ih hrest)
      · simp only [Bool.not_eq_true] at hek
        simp only [List.filter, hek]
        calc (rest.filter (fun e => e.1 != k)).length
            ≤ rest.length := List.length_filter_le _ _
          _ < (e :: rest).length := by simp

/-- Exhaustive description of what one `store_chunk` call can do,
for internal use by the invariant proofs. -/
theorem store_chunk_elim (st : ClientState) (seq : Nat) (payload : List Nat) :
    st.store_chunk seq payload = st ∨
    st.store_chunk seq payload = { st with p_duplicate := st.p_duplicate + 1 } ∨
    (payload.length ≤ MAX_PAYLOAD_SIZE ∧ seq ≤ 1000000 ∧ st.expected_seq ≤ seq ∧
      bufMem seq st.buffer = false ∧
      st.store_chunk seq payload = { st with buffer := bufInsert seq payload st.buffer }) := by
  unfold ClientState.store_chunk
  by_cases h1 : payload.length > MAX_PAYLOAD_SIZE
  · left; simp [h1]
  · by_cases h2 : seq > 1000000
    · left; simp [h1, h2]
    · by_cases h3 : seq < st.expected_seq
      · right; left; simp [h1, h2, h3]
      · by_cases h4 : bufMem seq st.buffer
        · right; left; simp [h1, h2, h3, h4]
        · right; right
          refine ⟨Nat.not_lt.mp h1, Nat.not_lt.mp h2, Nat.not_lt.mp h3,
            Bool.not_eq_true _ ▸ h4, by simp [h1, h2, h3, h4]⟩

theorem store_chunk_expected (st : ClientState) (seq : Nat) (payload : List Nat) :
    (st.store_chunk seq payload).expected_seq = st.expected_seq := by
  rcases store_chunk_elim st seq payload with h | h | ⟨_, _, _, _, h⟩ <;> rw [h]

theorem store_chunk_bufWithin {st : ClientState} (seq : Nat) (payload : List Nat)
    (h : BufWithin st) : BufWithin (st.store_chunk seq payload) := by
  rcases store_chunk_elim st seq payload with hc | hc | ⟨_, h2, h3, _, hc⟩ <;> rw [hc]
  · exact h
  · exact h
  · intro e he
    rcases mem_bufInsert.mp he with he' | he'
    · exact h e he'
    · subst he'
      exact ⟨h3, h2⟩

theorem writeLoop_bufWithin (fuel : Nat) : ∀ st : ClientState, BufWithin st →
    BufWithin (writeLoop fuel st).1 ∧
    st.expected_seq ≤ (writeLoop fuel st).1.expected_seq := by
  induction fuel with
  | zero => intro st h; exact ⟨h, Nat.le_refl _⟩
  | succ fuel ih =>
    intro st h
    unfold writeLoop
    cases hg : bufGet st.expected_seq st.buffer with
    | none => exact ⟨h, Nat.le_refl _⟩
    | some payload =>
      have hst1 : BufWithin (drainStep st) := by
        intro e he
        simp only [drainStep] at he ⊢
        rcases mem_bufErase.mp he with ⟨he', hne⟩
        have := h e he'
        exact ⟨Nat.lt_of_le_of_ne this.1 (Ne.symm hne), this.2⟩
      have := ih _ hst1
      exact ⟨this.1, Nat.le_trans (Nat.le_succ _) this.2⟩

theorem runOps_bufWithin : ∀ (ops : List ClientOp) (st : ClientState), BufWithin st →
    BufWithin (runOps st ops).1 ∧
    st.expected_seq ≤ (runOps st ops).1.expected_seq := by
  intro ops
  induction ops with
  | nil => intro st h; exact ⟨h, Nat.le_refl _⟩
  | cons op rest ih =>
    intro st h
    cases op with
    | store seq payload =>
      have h1 : BufWithin (st.store_chunk seq payload) :=
        store_chunk_bufWithin seq payload h
      have := ih _ h1
      refine ⟨this.1, ?_⟩
      calc st.expected_seq = (st.store_chunk seq payload).expected_seq :=
            (store_chunk_expected st seq payload).symm
        _ ≤ _ := this.2
    | write =>
      have h1 := writeLoop_bufWithin st.buffer.length st h
      have := ih _ h1.1
      exact ⟨this.1, Nat.le_trans h1.2 this.2⟩

/-! # Theorems -/

/-- C1: the spec promises `decode(encode(F)) == F` for every well-formed
frame, and the repository's own tests assert it; the code instead indexes
`raw_data[15]` (a single byte) rather than slicing the payload, so
`decode_packet` raises an uncaught exception on every encoded frame.
Here at seq=0, ack=0, flags=DATA, payload=b'', conn_id=1: encoding
succeeds and decoding the result crashes instead of returning the record. -/
theorem decode_encode_roundtrip_crashes :
    (encode_packet 0 0 FLAG_DATA [] 1).isSome = true ∧
    decode_packet ((encode_packet 0 0 FLAG_DATA [] 1).getD []) =
      DecodeResult.error := by
  constructor
  · rfl
  · rfl

/-- C3 counterexample: the all-zero 15-byte input has a checksum field
(0) that does not match the recomputed checksum (0xFFFF), so the claim
says `decode_packet` returns None; instead the function raises
(`IndexError` from `raw_data[15]`), i.e. its result is not the reject
outcome. -/
theorem decode_bad_checksum_not_rejected :
    verify_checksum (List.replicate 15 0) 0 = false ∧
    decode_packet (List.replicate 15 0) ≠ DecodeResult.reject := by
  constructor
  · decide
  · decide

/-- C3 amended: `decode_packet` returns None exactly on inputs shorter
than 15 bytes; on every input of at least 15 bytes it raises an uncaught
exception before any payload-length, checksum or flag check (and the
source contains no flag validation at all), so it never returns a
record. -/
theorem decode_packet_total_behavior (raw : List Nat) :
    (raw.length < 15 → decode_packet raw = DecodeResult.reject) ∧
    (15 ≤ raw.length → decode_packet raw = DecodeResult.error) := by
  constructor
  · intro h
    simp [decode_packet, CUSTOM_HEADER_SIZE, h]
  · intro h
    have h' : ¬ raw.length < 15 := Nat.not_lt.mpr h
    simp only [decode_packet, CUSTOM_HEADER_SIZE, if_neg h']
    cases raw.get? 15 <;> rfl

/-- Witness for the amended C3 theorem at concrete inputs. -/
theorem decode_packet_total_behavior_witness :
    ((3 : Nat) < 15 ∧ decode_packet [0, 0, 0] = DecodeResult.reject) ∧
    ((15 : Nat) ≤ 16 ∧ decode_packet (List.replicate 16 0) = DecodeResult.error) :=
  ⟨⟨by decide, (decode_packet_total_behavior [0, 0, 0]).1 (by decide)⟩,
   ⟨by decide, (decode_packet_total_behavior (List.replicate 16 0)).2 (by decide)⟩⟩

/-- C5: the spec and the function's own docstring promise an 8-byte UDP
header, but the source packs FOUR values (`src_port, dst_port,
udp_length, udp_checksum`) with the three-field format `'!HHH'`, so
`struct.pack` raises `struct.error` on every call: `build_udp_header`
never returns bytes (hence `send_packet`, which calls it first, never
transmits). -/
theorem build_udp_header_always_crashes (src_port dst_port payload_length : Nat) :
    build_udp_header src_port dst_port payload_length = none := by
  rfl

/-- C6 counterexample: from the initial receiver state
(`expected_seq = 0`), `store_chunk(100, b'')` inserts index 100 into the
buffer even though 100 lies far outside the claimed window
`[expected_seq, expected_seq + 10)`: `store_chunk` contains no window
check. -/
theorem store_chunk_ignores_window :
    bufMem 100 ((ClientState.store_chunk {} 100 []).buffer) = true ∧
    (ClientState.store_chunk {} 100 []).expected_seq = 0 ∧
    ¬ (100 < 0 + WINDOW_SIZE) := by
  refine ⟨by decide, by decide, by decide⟩

/-- C7: the exact case analysis of `store_chunk(seq, payload)`:
an oversized payload or `seq > 1,000,000` leaves the state untouched
(in particular 1,000,001 is dropped while 1,000,000 passes the guard);
a guarded `seq` below `expected_seq` or already buffered only increments
the duplicate counter; otherwise the chunk is inserted into the buffer. -/
theorem store_chunk_case_analysis (st : ClientState) (seq : Nat) (payload : List Nat) :
    (payload.length > MAX_PAYLOAD_SIZE ∨ 1000000 < seq →
      st.store_chunk seq payload = st) ∧
    (payload.length ≤ MAX_PAYLOAD_SIZE → seq ≤ 1000000 →
      (seq < st.expected_seq ∨ bufMem seq st.buffer = true) →
      st.store_chunk seq payload = { st with p_duplicate := st.p_duplicate + 1 }) ∧
    (payload.length ≤ MAX_PAYLOAD_SIZE → seq ≤ 1000000 →
      st.expected_seq ≤ seq → bufMem seq st.buffer = false →
      st.store_chunk seq payload = { st with buffer := bufInsert seq payload st.buffer }) := by
  refine ⟨?_, ?_, ?_⟩
  · rintro (h | h)
    · simp [ClientState.store_chunk, h]
    · have h1 : ¬ payload.length > MAX_PAYLOAD_SIZE ∨ payload.length > MAX_PAYLOAD_SIZE := by
        tauto
      rcases h1 with h1 | h1
      · simp [ClientState.store_chunk, h1, h]
      · simp [ClientState.store_chunk, h1]
  · intro h1 h2 h3
    have h1' : ¬ payload.length > MAX_PAYLOAD_SIZE := Nat.not_lt.mpr h1
    have h2' : ¬ 1000000 < seq := Nat.not_lt.mpr h2
    rcases h3 with h3 | h3
    · simp [ClientState.store_chunk, h1', h2', h3]
    · have h4 : ¬ seq < st.expected_seq ∨ seq < st.expected_seq := by tauto
      rcases h4 with h4 | h4
      · simp [ClientState.store_chunk, h1', h2', h4, h3]
      · simp [ClientState.store_chunk, h1', h2', h4]
  · intro h1 h2 h3 h4
    have h1' : ¬ payload.length > MAX_PAYLOAD_SIZE := Nat.not_lt.mpr h1
    have h2' : ¬ 1000000 < seq := Nat.not_lt.mpr h2
    have h3' : ¬ seq < st.expected_seq := Nat.not_lt.mpr h3
    simp [ClientState.store_chunk, h1', h2', h3', h4]

/-- Witness for the C7 theorem: index 1,000,001 is dropped, index
1,000,000 is accepted into the buffer, and a stale index only bumps the
duplicate counter. -/
theorem store_chunk_case_analysis_witness :
    (ClientState.store_chunk {} 1000001 [7] = {}) ∧
    (ClientState.store_chunk {} 1000000 [7] =
      { ({} : ClientState) with buffer := bufInsert 1000000 [7] ({} : ClientState).buffer }) ∧
    (ClientState.store_chunk { expected_seq := 5 } 3 [7] =
      { ({ expected_seq := 5 } : ClientState) with p_duplicate :=
          ({ expected_seq := 5 } : ClientState).p_duplicate + 1 }) :=
  ⟨(store_chunk_case_analysis {} 1000001 [7]).1 (Or.inr (by decide)),
   (store_chunk_case_analysis {} 1000000 [7]).2.2 (by decide) (by decide)
     (by decide) (by decide),
   (store_chunk_case_analysis { expected_seq := 5 } 3 [7]).2.1 (by decide) (by decide)
     (Or.inl (by decide))⟩

/-- C9 counterexample: with connection id 0, the handshake wait loop of
`send_syn_request` accepts a decoded SYN|ACK frame carrying `conn_id = 7`
— the loop checks only `packet["flags"] == FLAG_SYN_ACK` and never
inspects `conn_id`. -/
theorem syn_wait_accepts_mismatched_conn_id :
    (PacketRec.mk 0 0 0 0 FLAG_SYN_ACK 7 []).conn_id ≠ 0 ∧
    synWaitLoop 0 [RInput.pkt (PacketRec.mk 0 0 0 0 FLAG_SYN_ACK 7 [])] = true := by
  constructor
  · decide
  · decide

/-- C9 amended: only the data phase filters by `conn_id`.  The handshake
wait loop's outcome is independent of the connection id, while a
`receive_file` iteration handed a decoded frame with a mismatched
`conn_id` merely increments the total and invalid counters: nothing is
stored, nothing written, no ACK emitted, and the loop continues. -/
theorem conn_id_filtering (cid cid' : Nat) (inputs : List RInput)
    (ls : RecvLoopState) (p : PacketRec) (hp : p.conn_id ≠ cid) :
    synWaitLoop cid inputs = synWaitLoop cid' inputs ∧
    recvStep cid ls (RInput.pkt p) =
      ({ state := { ls.state with
            p_total := ls.state.p_total + 1,
            p_invalid := ls.state.p_invalid + 1 },
         consecutive_timeouts := 0 }, [], false) := by
  constructor
  · induction inputs with
    | nil => rfl
    | cons i rest ih =>
      cases i with
      | timeout => simpa [synWaitLoop] using ih
      | corrupt => simpa [synWaitLoop] using ih
      | pkt q =>
        by_cases hq : q.flags == FLAG_SYN_ACK
        · simp [synWaitLoop, hq]
        · simpa [synWaitLoop, hq] using ih
  · simp [recvStep, hp]

/-- Witness for the amended C9 theorem. -/
theorem conn_id_filtering_witness :
    (PacketRec.mk 0 0 0 0 FLAG_SYN_ACK 7 []).conn_id ≠ 5 ∧
    synWaitLoop 5 [RInput.corrupt] = synWaitLoop 9 [RInput.corrupt] ∧
    recvStep 5 (RecvLoopState.mk {} 0) (RInput.pkt (PacketRec.mk 0 0 0 0 FLAG_SYN_ACK 7 [])) =
      (RecvLoopState.mk { p_total := 1, p_invalid := 1 } 0, [], false) :=
  ⟨by decide,
   (conn_id_filtering 5 9 [RInput.corrupt] (RecvLoopState.mk {} 0)
     (PacketRec.mk 0 0 0 0 FLAG_SYN_ACK 7 []) (by decide)).1,
   by
    have h := (conn_id_filtering 5 9 [RInput.corrupt] (RecvLoopState.mk {} 0)
      (PacketRec.mk 0 0 0 0 FLAG_SYN_ACK 7 []) (by decide)).2
    simpa using h⟩

/-- C6 amended: at every state reachable from the initial receiver state
by `store_chunk` / `write_chunk` calls, every buffered index lies in
`[expected_seq, 1000000]` — the upper bound is the 1,000,000
memory-exhaustion guard, not the window `expected_seq + 10`, and the
buffer size is unbounded by the window. -/
theorem buffer_keys_bounded (ops : List ClientOp) (k : Nat) (v : List Nat)
    (h : (k, v) ∈ (runOps {} ops).1.buffer) :
    (runOps {} ops).1.expected_seq ≤ k ∧ k ≤ 1000000 := by
  have h0 : BufWithin ({} : ClientState) := by
    intro e he
    cases he
  exact (runOps_bufWithin ops {} h0).1 (k, v) h

/-- Witness for the amended C6 theorem. -/
theorem buffer_keys_bounded_witness :
    ((3, [9]) ∈ (runOps {} [ClientOp.store 3 [9]]).1.buffer) ∧
    (runOps {} [ClientOp.store 3 [9]]).1.expected_seq ≤ 3 ∧ 3 ≤ 1000000 :=
  ⟨by decide, buffer_keys_bounded [ClientOp.store 3 [9]] 3 [9] (by decide)⟩

/-! Helpers for the receive-loop acknowledgement stream. -/

theorem pairwise_le_of_all_eq {l : List Nat} {c : Nat} (h : ∀ a ∈ l, a = c) :
    List.Pairwise (· ≤ ·) l := by
  induction l with
  | nil => exact List.Pairwise.nil
  | cons x xs ih =>
    refine List.Pairwise.cons ?_ (ih fun a ha => h a (List.mem_cons_of_mem _ ha))
    intro b hb
    rw [h x (List.mem_cons_self x xs), h b (List.mem_cons_of_mem _ hb)]

theorem writeLoop_expected_mono (fuel : Nat) : ∀ st : ClientState,
    st.expected_seq ≤ (writeLoop fuel st).1.expected_seq := by
  induction fuel with
  | zero => intro st; exact Nat.le_refl _
  | succ fuel ih =>
    intro st
    unfold writeLoop
    cases hg : bufGet st.expected_seq st.buffer with
    | none => exact Nat.le_refl _
    | some payload =>
      exact Nat.le_trans (Nat.le_succ _) (ih (drainStep st))

/-- The DATA block of a `receive_file` iteration: every frame it sends
carries `ack_num` equal to the post-iteration `expected_seq`, and
`expected_seq` does not decrease. -/
theorem recvData_spec (p : PacketRec) (st1 : ClientState) :
    (∀ a ∈ (recvData p st1).2.1, a = (recvData p st1).1.state.expected_seq) ∧
    st1.expected_seq ≤ (recvData p st1).1.state.expected_seq := by
  simp only [recvData]
  by_cases hfin : p.flags &&& FLAG_FIN_DATA = FLAG_FIN_DATA
  · simp only [if_pos hfin]
    set st2 := st1.store_chunk p.seq_num p.payload with hst2
    set st3 : ClientState := { st2 with fin_seq := some p.seq_num } with hst3
    set st4 := (st3.write_chunk).1 with hst4
    have hm : st1.expected_seq ≤ st4.expected_seq := by
      have h2 : st2.expected_seq = st1.expected_seq := store_chunk_expected _ _ _
      have h4 : st3.expected_seq ≤ st4.expected_seq := writeLoop_expected_mono _ _
      have h3 : st3.expected_seq = st2.expected_seq := rfl
      omega
    cases hf : st4.fin_seq with
    | none =>
      simp only [hf]
      refine ⟨?_, hm⟩
      intro a ha
      simpa using ha
    | some f =>
      by_cases he : st4.expected_seq = f + 1
      · simp only [hf, if_pos he]
        refine ⟨?_, hm⟩
        intro a ha
        simp at ha
        simpa using ha
      · simp only [hf, if_neg he]
        refine ⟨?_, hm⟩
        intro a ha
        simpa using ha
  · simp only [if_neg hfin]
    set st2 := st1.store_chunk p.seq_num p.payload with hst2
    set st4 := (st2.write_chunk).1 with hst4
    have hm : st1.expected_seq ≤ st4.expected_seq := by
      have h2 : st2.expected_seq = st1.expected_seq := store_chunk_expected _ _ _
      have h4 : st2.expected_seq ≤ st4.expected_seq := writeLoop_expected_mono _ _
      omega
    cases hf : st4.fin_seq with
    | none =>
      simp only [hf]
      refine ⟨?_, hm⟩
      intro a ha
      simpa using ha
    | some f =>
      by_cases he : st4.expected_seq = f + 1
      · simp only [hf, if_pos he]
        refine ⟨?_, hm⟩
        intro a ha
        simp at ha
        simpa using ha
      · simp only [hf, if_neg he]
        refine ⟨?_, hm⟩
        intro a ha
        simpa using ha

/-- One `receive_file` iteration: every frame it sends carries
`ack_num` equal to the post-iteration `expected_seq`, and
`expected_seq` does not decrease. -/
theorem recvStep_acks (conn_id : Nat) (ls : RecvLoopState) (inp : RInput) :
    (∀ a ∈ (recvStep conn_id ls inp).2.1,
      a = (recvStep conn_id ls inp).1.state.expected_seq) ∧
    ls.state.expected_seq ≤ (recvStep conn_id ls inp).1.state.expected_seq := by
  cases inp with
  | timeout =>
    constructor
    · intro a ha
      simp [recvStep] at ha
    · simp [recvStep]
  | corrupt =>
    constructor
    · intro a ha
      simp [recvStep] at ha
    · simp [recvStep]
  | pkt p =>
    by_cases hc : p.conn_id ≠ conn_id
    · constructor
      · intro a ha
        simp [recvStep, hc] at ha
      · simp [recvStep, hc]
    · by_cases hd : p.flags &&& FLAG_DATA ≠ 0
      · simp only [recvStep, if_neg hc, if_pos hd]
        exact ⟨(recvData_spec p _).1,
          (recvData_spec p
            { ls.state with p_total := ls.state.p_total + 1,
                            p_valid := ls.state.p_valid + 1 }).2⟩
      · constructor
        · intro a ha
          simp [recvStep, hc, hd] at ha
        · simp [recvStep, hc, hd]

/-- The full acknowledgement stream of a `receive_file` run is bounded
below by the starting `expected_seq` and is non-decreasing. -/
theorem runReceive_acks (conn_id : Nat) : ∀ (inputs : List RInput) (ls : RecvLoopState),
    List.Pairwise (· ≤ ·) (runReceive conn_id ls inputs).2 ∧
    ∀ a ∈ (runReceive conn_id ls inputs).2, ls.state.expected_seq ≤ a := by
  intro inputs
  induction inputs with
  | nil =>
    intro ls
    constructor
    · exact List.Pairwise.nil
    · intro a ha
      simp [runReceive] at ha
  | cons inp rest ih =>
    intro ls
    have hstep := recvStep_acks conn_id ls inp
    by_cases hdone : (recvStep conn_id ls inp).2.2 = true
    · constructor
      · simp only [runReceive, if_pos hdone]
        exact pairwise_le_of_all_eq hstep.1
      · intro a ha
        simp only [runReceive, if_pos hdone] at ha
        rw [hstep.1 a ha]
        exact hstep.2
    · have hih := ih (recvStep conn_id ls inp).1
      constructor
      · simp only [runReceive, if_neg hdone]
        rw [List.pairwise_append]
        refine ⟨pairwise_le_of_all_eq hstep.1, hih.1, ?_⟩
        intro a ha b hb
        rw [hstep.1 a ha]
        exact hih.2 b hb
      · intro a ha
        simp only [runReceive, if_neg hdone] at ha
        rcases List.mem_append.mp ha with h | h
        · rw [hstep.1 a h]
          exact hstep.2
        · exact Nat.le_trans hstep.2 (hih.2 a h)

/-- C8: `store_chunk` never changes `expected_seq` (only the
`write_chunk` drain loop advances it), `expected_seq` is monotonically
non-decreasing across every sequence of `store_chunk` / `write_chunk`
calls, and consequently the `ack_num` values of the ACK and FIN_ACK
frames emitted by a `receive_file` run (each equal to `expected_seq`
at the moment of sending) form a non-decreasing sequence. -/
theorem expected_seq_monotone_and_acks_sorted :
    (∀ (st : ClientState) (seq : Nat) (payload : List Nat),
      (st.store_chunk seq payload).expected_seq = st.expected_seq) ∧
    (∀ (st : ClientState) (ops : List ClientOp),
      st.expected_seq ≤ (runOps st ops).1.expected_seq) ∧
    (∀ (conn_id : Nat) (inputs : List RInput),
      List.Pairwise (· ≤ ·)
        (runReceive conn_id (RecvLoopState.mk {} 0) inputs).2) := by
  refine ⟨store_chunk_expected, ?_, ?_⟩
  · intro st ops
    induction ops generalizing st with
    | nil => exact Nat.le_refl _
    | cons op rest ih =>
      cases op with
      | store seq payload =>
        have h := ih (st.store_chunk seq payload)
        rw [store_chunk_expected] at h
        exact h
      | write =>
        exact Nat.le_trans (writeLoop_expected_mono st.buffer.length st)
          (ih (st.write_chunk).1)
  · intro conn_id inputs
    exact (runReceive_acks conn_id inputs (RecvLoopState.mk {} 0)).1

/-! # The reordering engine delivers chunks in order (C2) -/

theorem runOps_append (st : ClientState) (l1 l2 : List ClientOp) :
    runOps st (l1 ++ l2) =
      ((runOps (runOps st l1).1 l2).1,
        (runOps st l1).2 ++ (runOps (runOps st l1).1 l2).2) := by
  induction l1 generalizing st with
  | nil => simp [runOps]
  | cons op rest ih =>
    cases op with
    | store seq payload =>
      simp only [List.cons_append, runOps]
      exact ih _
    | write =>
      have h1 : runOps st ((ClientOp.write :: rest) ++ l2) =
          ((runOps (st.write_chunk).1 (rest ++ l2)).1,
            (st.write_chunk).2 ++ (runOps (st.write_chunk).1 (rest ++ l2)).2) := rfl
      have h2 : runOps st (ClientOp.write :: rest) =
          ((runOps (st.write_chunk).1 rest).1,
            (st.write_chunk).2 ++ (runOps (st.write_chunk).1 rest).2) := rfl
      rw [h1, h2, ih ((st.write_chunk).1)]
      simp [List.append_assoc]

/-- Full description of the `write_chunk` drain loop under the
reordering invariant: the invariant is preserved, the payloads written
are exactly the chunks `expected_seq, expected_seq+1, …` up to the new
`expected_seq`, the new `expected_seq` is no longer buffered, and
everything already absorbed stays absorbed. -/
theorem writeLoop_drain (N : Nat) (P : Nat → List Nat) :
    ∀ (fuel : Nat) (st : ClientState), st.buffer.length ≤ fuel → ReorderInv N P st →
      ReorderInv N P (writeLoop fuel st).1 ∧
      (writeLoop fuel st).1.expected_seq =
        st.expected_seq + (writeLoop fuel st).2.length ∧
      (writeLoop fuel st).2 =
        (List.range' st.expected_seq (writeLoop fuel st).2.length).map P ∧
      bufMem (writeLoop fuel st).1.expected_seq (writeLoop fuel st).1.buffer = false ∧
      (∀ i, covered st i → covered (writeLoop fuel st).1 i) := by
  intro fuel
  induction fuel with
  | zero =>
    intro st hlen hinv
    have hempty : st.buffer = [] := List.length_eq_zero.mp (Nat.le_zero.mp hlen)
    refine ⟨hinv, by simp [writeLoop], by simp [writeLoop], ?_, fun i h => h⟩
    show bufMem st.expected_seq st.buffer = false
    rw [hempty]
    rfl
  | succ fuel ih =>
    intro st hlen hinv
    cases hg : bufGet st.expected_seq st.buffer with
    | none =>
      have hred : writeLoop (fuel + 1) st = (st, []) := by
        unfold writeLoop
        rw [hg]
      rw [hred]
      exact ⟨hinv, by simp, by simp, bufGet_eq_none_iff.mp hg, fun i h => h⟩
    | some payload =>
      have hmem : (st.expected_seq, payload) ∈ st.buffer := bufGet_mem hg
      obtain ⟨-, hltN, hpay⟩ := hinv.2 _ hmem
      have hpay' : payload = P st.expected_seq := hpay
      have hltN' : st.expected_seq < N := hltN
      have hred : writeLoop (fuel + 1) st =
          ((writeLoop fuel (drainStep st)).1,
            payload :: (writeLoop fuel (drainStep st)).2) := by
        simp only [writeLoop]
        rw [hg]
      have hinv1 : ReorderInv N P (drainStep st) := by
        constructor
        · exact hltN'
        · intro e he
          simp only [drainStep] at he
          rcases mem_bufErase.mp he with ⟨he', hne⟩
          have h := hinv.2 e he'
          exact ⟨Nat.lt_of_le_of_ne h.1 (Ne.symm hne), h.2.1, h.2.2⟩
      have hlen1 : (drainStep st).buffer.length ≤ fuel := by
        have := bufErase_length_lt hg
        simp only [drainStep]
        omega
      obtain ⟨hI, hE, hO, hB, hC⟩ := ih (drainStep st) hlen1 hinv1
      rw [hred]
      have hexp1 : (drainStep st).expected_seq = st.expected_seq + 1 := rfl
      refine ⟨hI, ?_, ?_, hB, ?_⟩
      · simp only [List.length_cons]
        omega
      · have hout : payload :: (writeLoop fuel (drainStep st)).2 =
            List.map P (List.range' st.expected_seq
              ((writeLoop fuel (drainStep st)).2.length + 1)) := by
          conv_rhs => rw [List.range'_succ, List.map_cons, ← hpay']
          conv_lhs => rw [hO, hexp1]
        simpa using hout
      · intro i hcov
        apply hC
        unfold covered at hcov ⊢
        rcases hcov with h | h
        · left
          rw [hexp1]
          omega
        · by_cases he : i = st.expected_seq
          · left
            rw [hexp1, he]
            omega
          · right
            rcases bufMem_eq_true_iff.mp h with ⟨v, hv⟩
            refine bufMem_eq_true_iff.mpr ⟨v, ?_⟩
            simp only [drainStep]
            exact mem_bufErase.mpr ⟨hv, he⟩

/-- One valid `store_chunk` call under the reordering invariant:
the invariant is preserved, `expected_seq` is untouched, the stored
index becomes absorbed, and absorbed indices stay absorbed. -/
theorem store_chunk_inv (N : Nat) (P : Nat → List Nat) (st : ClientState)
    (seq : Nat) (payload : List Nat) (hN : N ≤ 1000001) (hseq : seq < N)
    (hpay : payload = P seq) (hplen : (P seq).length ≤ MAX_PAYLOAD_SIZE)
    (hinv : ReorderInv N P st) :
    ReorderInv N P (st.store_chunk seq payload) ∧
    (st.store_chunk seq payload).expected_seq = st.expected_seq ∧
    covered (st.store_chunk seq payload) seq ∧
    (∀ i, covered st i → covered (st.store_chunk seq payload) i) := by
  have hg1 : ¬ payload.length > MAX_PAYLOAD_SIZE := by
    rw [hpay]
    omega
  have hg2 : ¬ seq > 1000000 := by omega
  unfold ClientState.store_chunk
  rw [if_neg hg1, if_neg hg2]
  by_cases h3 : seq < st.expected_seq
  · rw [if_pos h3]
    exact ⟨hinv, rfl, Or.inl h3, fun i h => h⟩
  · rw [if_neg h3]
    by_cases h4 : bufMem seq st.buffer = true
    · rw [if_pos h4]
      exact ⟨hinv, rfl, Or.inr h4, fun i h => h⟩
    · rw [if_neg h4]
      refine ⟨⟨hinv.1, ?_⟩, rfl, ?_, ?_⟩
      · intro e he
        simp only at he
        rcases mem_bufInsert.mp he with he' | he'
        · exact hinv.2 e he'
        · subst he'
          exact ⟨Nat.le_of_not_lt h3, hseq, hpay.symm ▸ rfl⟩
      · right
        simp only
        exact bufMem_eq_true_iff.mpr ⟨payload, mem_bufInsert.mpr (Or.inr rfl)⟩
      · intro i h
        unfold covered at h ⊢
        rcases h with h | h
        · exact Or.inl h
        · right
          rcases bufMem_eq_true_iff.mp h with ⟨v, hv⟩
          exact bufMem_eq_true_iff.mpr ⟨v, mem_bufInsert.mpr (Or.inl hv)⟩

/-- Running any valid call sequence from an invariant state: the
invariant is preserved, the sink receives exactly the chunks from the
old `expected_seq` up to the new one, and every index stored during the
run ends up absorbed. -/
theorem runOps_drain (N : Nat) (P : Nat → List Nat) (hN : N ≤ 1000001)
    (hP : ∀ i, i < N → (P i).length ≤ MAX_PAYLOAD_SIZE) :
    ∀ (ops : List ClientOp) (st : ClientState),
      (∀ op ∈ ops, storeOK N P op) → ReorderInv N P st →
      ReorderInv N P (runOps st ops).1 ∧
      st.expected_seq ≤ (runOps st ops).1.expected_seq ∧
      (runOps st ops).2 = (List.range' st.expected_seq
        ((runOps st ops).1.expected_seq - st.expected_seq)).map P ∧
      (∀ i, covered st i → covered (runOps st ops).1 i) ∧
      (∀ seq payload, ClientOp.store seq payload ∈ ops →
        covered (runOps st ops).1 seq) := by
  intro ops
  induction ops with
  | nil =>
    intro st _ hinv
    exact ⟨hinv, Nat.le_refl _, by simp [runOps], fun i h => h, by intro _ _ h; cases h⟩
  | cons op rest ih =>
    intro st hok hinv
    cases op with
    | store seq payload =>
      have hthis : storeOK N P (ClientOp.store seq payload) :=
        hok _ (List.mem_cons_self _ _)
      obtain ⟨hseq, hpay⟩ := hthis
      obtain ⟨sI, sE, sC, sP⟩ :=
        store_chunk_inv N P st seq payload hN hseq hpay (hP seq hseq) hinv
      obtain ⟨rI, rE, rO, rC, rS⟩ :=
        ih (st.store_chunk seq payload) (fun op h => hok op (List.mem_cons_of_mem _ h)) sI
      have hrun : runOps st (ClientOp.store seq payload :: rest) =
          runOps (st.store_chunk seq payload) rest := rfl
      rw [hrun]
      refine ⟨rI, ?_, ?_, ?_, ?_⟩
      · rw [← sE]; exact rE
      · rw [rO, sE]
      · intro i h
        exact rC i (sP i h)
      · intro s p hmem
        rcases List.mem_cons.mp hmem with heq | hmem'
        · cases heq
          exact rC _ sC
        · exact rS s p hmem'
    | write =>
      obtain ⟨wI, wE, wO, wB, wC⟩ :=
        writeLoop_drain N P st.buffer.length st (Nat.le_refl _) hinv
      have wI' : ReorderInv N P (st.write_chunk).1 := wI
      have wE' : (st.write_chunk).1.expected_seq =
          st.expected_seq + (st.write_chunk).2.length := wE
      have wO' : (st.write_chunk).2 =
          (List.range' st.expected_seq (st.write_chunk).2.length).map P := wO
      have wC' : ∀ i, covered st i → covered (st.write_chunk).1 i := wC
      obtain ⟨rI, rE, rO, rC, rS⟩ :=
        ih (st.write_chunk).1 (fun op h => hok op (List.mem_cons_of_mem _ h)) wI'
      have hrun : runOps st (ClientOp.write :: rest) =
          ((runOps (st.write_chunk).1 rest).1,
            (st.write_chunk).2 ++ (runOps (st.write_chunk).1 rest).2) := rfl
      rw [hrun]
      rw [wE'] at rE
      refine ⟨rI, ?_, ?_, ?_, ?_⟩
      · show st.expected_seq ≤ (runOps (st.write_chunk).1 rest).1.expected_seq
        omega
      · show (st.write_chunk).2 ++ (runOps (st.write_chunk).1 rest).2 =
          (List.range' st.expected_seq
            ((runOps (st.write_chunk).1 rest).1.expected_seq - st.expected_seq)).map P
        set m := (st.write_chunk).2.length with hm
        rw [rO, wE', wO', ← List.map_append, List.range'_append_1]
        congr 2
        omega
      · intro i h
        exact rC i (wC' i h)
      · intro s p hmem
        rcases List.mem_cons.mp hmem with heq | hmem'
        · cases heq
        · exact rS s p hmem'

/-- C2: for every transfer of `N ≤ 1,000,001` chunks with payloads of
at most 1400 bytes, any sequence of `store_chunk` calls that delivers
every index below `N` (in arbitrary order, with arbitrary duplicates),
interleaved with `write_chunk` drains and ending in a final
`write_chunk`, makes the sink receive exactly the `N` payloads in
ascending index order, with no gaps and no duplicates. -/
theorem reorder_delivers_in_order (N : Nat) (P : Nat → List Nat)
    (pre : List ClientOp) (hN : N ≤ 1000001)
    (hP : ∀ i, i < N → (P i).length ≤ MAX_PAYLOAD_SIZE)
    (hok : ∀ op ∈ pre ++ [ClientOp.write], storeOK N P op)
    (hcover : ∀ i, i < N → ClientOp.store i (P i) ∈ pre ++ [ClientOp.write]) :
    (runOps {} (pre ++ [ClientOp.write])).2 = (List.range N).map P := by
  have hinv0 : ReorderInv N P ({} : ClientState) := by
    constructor
    · exact Nat.zero_le _
    · intro e he
      cases he
  obtain ⟨fI, fE, fO, fC, fS⟩ :=
    runOps_drain N P hN hP (pre ++ [ClientOp.write]) {} hok hinv0
  -- the run ends with a drain, so the final expected_seq is not buffered
  have hsplit := runOps_append ({} : ClientState) pre [ClientOp.write]
  have hmidI : ReorderInv N P (runOps {} pre).1 :=
    (runOps_drain N P hN hP pre {}
      (fun op h => hok op (List.mem_append_left _ h)) hinv0).1
  obtain ⟨lI, lE, lO, lB, lC⟩ :=
    writeLoop_drain N P (runOps {} pre).1.buffer.length (runOps {} pre).1
      (Nat.le_refl _) hmidI
  have hfinal_state : (runOps {} (pre ++ [ClientOp.write])).1 =
      ((runOps {} pre).1.write_chunk).1 := by
    rw [hsplit]
    rfl
  have hnotbuf : bufMem (runOps {} (pre ++ [ClientOp.write])).1.expected_seq
      (runOps {} (pre ++ [ClientOp.write])).1.buffer = false := by
    rw [hfinal_state]
    exact lB
  -- the final expected_seq equals N
  have hEN : (runOps {} (pre ++ [ClientOp.write])).1.expected_seq = N := by
    have hle : (runOps {} (pre ++ [ClientOp.write])).1.expected_seq ≤ N := fI.1
    rcases Nat.lt_or_ge (runOps {} (pre ++ [ClientOp.write])).1.expected_seq N with hlt | hge
    · exfalso
      have hcov := fS _ (P _) (hcover _ hlt)
      unfold covered at hcov
      rcases hcov with h | h
      · omega
      · rw [hnotbuf] at h
        cases h
    · omega
  rw [fO, hEN]
  have : (({} : ClientState)).expected_seq = 0 := rfl
  rw [this, Nat.sub_zero, List.range_eq_range']

/-- Witness for C2: the two chunks of a transfer arrive out of order
before a final drain, and the sink receives them in index order. -/
theorem reorder_delivers_in_order_witness :
    ((2 : Nat) ≤ 1000001) ∧
    (∀ i, i < 2 → (((fun i => [i]) : Nat → List Nat) i).length ≤ MAX_PAYLOAD_SIZE) ∧
    (∀ op ∈ [ClientOp.store 1 [1], ClientOp.store 0 [0]] ++ [ClientOp.write],
      storeOK 2 (fun i => [i]) op) ∧
    (∀ i, i < 2 → ClientOp.store i [i] ∈
      [ClientOp.store 1 [1], ClientOp.store 0 [0]] ++ [ClientOp.write]) ∧
    (runOps {} ([ClientOp.store 1 [1], ClientOp.store 0 [0]] ++ [ClientOp.write])).2 =
      (List.range 2).map (fun i => [i]) :=
  ⟨by decide, by decide, by decide, by decide,
   reorder_delivers_in_order 2 (fun i => [i])
     [ClientOp.store 1 [1], ClientOp.store 0 [0]]
     (by decide) (by decide) (by decide) (by decide)⟩

/-! # Helper lemmas about the retransmit-queue embedding -/

theorem itemsGet_nil {k : String} :
    itemsGet k ([] : List (String × RtxItem)) = none := rfl

theorem itemsGet_cons {k : String} {e : String × RtxItem}
    {rest : List (String × RtxItem)} :
    itemsGet k (e :: rest) =
      if (e.1 == k) = true then some e.2 else itemsGet k rest := by
  by_cases h : (e.1 == k) = true
  · rw [if_pos h]
    unfold itemsGet
    simp only [List.find?, h]
  · rw [if_neg h]
    unfold itemsGet
    have hf : (e.1 == k) = false := by simpa using h
    simp only [List.find?, hf]

theorem itemsGet_eq_find (k : String) (its : List (String × RtxItem)) :
    itemsGet k its = (its.find? (fun e => e.1 == k)).map (fun e => e.2) := by
  unfold itemsGet
  cases its.find? (fun e => e.1 == k) <;> rfl

theorem find_filter_ne_none (k : String) (its : List (String × RtxItem)) :
    (its.filter (fun e => e.1 != k)).find? (fun e => e.1 == k) = none := by
  rw [List.find?_eq_none]
  intro e he
  rcases List.mem_filter.mp he with ⟨-, hne⟩
  simpa using hne

theorem itemsGet_itemsPop (k k' : String) (its : List (String × RtxItem)) :
    itemsGet k (itemsPop k' its) = if k' = k then none else itemsGet k its := by
  by_cases h : k' = k
  · rw [if_pos h]
    subst h
    rw [itemsGet_eq_find]
    rw [show itemsPop k' its = its.filter (fun e => e.1 != k') from rfl]
    rw [find_filter_ne_none]
    rfl
  · rw [if_neg h]
    unfold itemsPop
    induction its with
    | nil => rfl
    | cons e rest ih =>
      by_cases he : (e.1 != k') = true
      · have hcons : List.filter (fun e => e.1 != k') (e :: rest) =
            e :: List.filter (fun e => e.1 != k') rest := by
          simp only [List.filter, he]
        rw [hcons, itemsGet_cons, itemsGet_cons]
        by_cases hk : (e.1 == k) = true
        · rw [if_pos hk, if_pos hk]
        · rw [if_neg hk, if_neg hk]
          exact ih
      · have he' : e.1 = k' := by
          simpa using he
        have hk : ¬ (e.1 == k) = true := by
          simp [he', h]
        have hcons : List.filter (fun e => e.1 != k') (e :: rest) =
            List.filter (fun e => e.1 != k') rest := by
          have hf : (e.1 != k') = false := by simpa using he
          simp only [List.filter, hf]
        rw [hcons, itemsGet_cons, if_neg hk]
        exact ih

theorem itemsGet_itemsSet (k k' : String) (v : RtxItem)
    (its : List (String × RtxItem)) :
    itemsGet k (itemsSet k' v its) = if k' = k then some v else itemsGet k its := by
  unfold itemsSet
  rw [itemsGet_eq_find, List.find?_append]
  by_cases h : k' = k
  · subst h
    rw [find_filter_ne_none]
    simp
  · have h2 : ([(k', v)] : List (String × RtxItem)).find? (fun e => e.1 == k) = none := by
      rw [List.find?_eq_none]
      intro e he
      rcases List.mem_singleton.mp he with rfl
      simpa using h
    rw [h2, if_neg h]
    have h3 := itemsGet_itemsPop k k' its
    rw [if_neg h] at h3
    rw [← h3, itemsGet_eq_find]
    rw [show itemsPop k' its = its.filter (fun e => e.1 != k') from rfl]
    cases (its.filter (fun e => e.1 != k')).find? (fun e => e.1 == k) <;> rfl

theorem remBudget_of_get {maxr : Nat} {k : String} {a b : List (String × RtxItem)}
    (h : itemsGet k a = itemsGet k b) :
    remBudget maxr k a = remBudget maxr k b := by
  unfold remBudget
  rw [h]

theorem kCount_nil {k : String} : kCount k [] = 0 := rfl

theorem kCount_cons {k kh : String} {p : List Nat} {l : List (String × List Nat)} :
    kCount k ((kh, p) :: l) =
      (if (kh == k) = true then 1 else 0) + kCount k l := by
  unfold kCount
  by_cases h : (kh == k) = true
  · have hcons : List.filter (fun e => e.1 == k) ((kh, p) :: l) =
        (kh, p) :: List.filter (fun e => e.1 == k) l := by
      simp only [List.filter, h]
    rw [if_pos h, hcons]
    simp [Nat.add_comm]
  · have hcons : List.filter (fun e => e.1 == k) ((kh, p) :: l) =
        List.filter (fun e => e.1 == k) l := by
      have hf : (kh == k) = false := by simpa using h
      simp only [List.filter, hf]
    rw [if_neg h, hcons]
    simp

theorem kCount_append {k : String} {a b : List (String × List Nat)} :
    kCount k (a ++ b) = kCount k a + kCount k b := by
  unfold kCount
  rw [List.filter_append, List.length_append]

theorem add_items (q : RetransmitQueue) (now : Nat) (key : String)
    (payload : List Nat) :
    (q.add now key payload).items =
      itemsSet key { payload := payload, retries := 0 } q.items := rfl

theorem ack_items (q : RetransmitQueue) (key : String) :
    (q.ack key).items = itemsPop key q.items := rfl

/-- Tracking one key through the `tick` loop: its retransmission count
never exceeds its remaining budget `max_retries - retries`, and a key
absent from `items` is never retransmitted and stays absent. -/
theorem tickLoop_k_budget (maxr rto : Nat) (k : String) :
    ∀ (fuel now : Nat) (heap : List (Nat × String))
      (items : List (String × RtxItem)),
      kCount k (tickLoop maxr rto fuel now heap items).2.2 +
        remBudget maxr k (tickLoop maxr rto fuel now heap items).2.1 ≤
        remBudget maxr k items ∧
      (itemsGet k items = none →
        itemsGet k (tickLoop maxr rto fuel now heap items).2.1 = none ∧
        kCount k (tickLoop maxr rto fuel now heap items).2.2 = 0) := by
  intro fuel
  induction fuel with
  | zero =>
    intro now heap items
    have hred : tickLoop maxr rto 0 now heap items = (heap, items, []) := by
      simp only [tickLoop]
    rw [hred]
    exact ⟨by simp [kCount_nil], fun h => ⟨h, rfl⟩⟩
  | succ fuel ih =>
    intro now heap items
    cases heap with
    | nil =>
      have hred : tickLoop maxr rto (fuel + 1) now [] items = ([], items, []) := by
        simp only [tickLoop]
      rw [hred]
      exact ⟨by simp [kCount_nil], fun h => ⟨h, rfl⟩⟩
    | cons hd heapRest =>
      obtain ⟨d, kh⟩ := hd
      by_cases hdue : d ≤ now
      · cases hcur : itemsGet kh items with
        | none =>
          have hred : tickLoop maxr rto (fuel + 1) now ((d, kh) :: heapRest) items =
              tickLoop maxr rto fuel now heapRest items := by
            simp only [tickLoop, if_pos hdue, hcur]
          rw [hred]
          exact ih now heapRest items
        | some cur =>
          by_cases hex : cur.retries ≥ maxr
          · have hred : tickLoop maxr rto (fuel + 1) now ((d, kh) :: heapRest) items =
                tickLoop maxr rto fuel now heapRest (itemsPop kh items) := by
              simp only [tickLoop, if_pos hdue, hcur, if_pos hex]
            rw [hred]
            obtain ⟨ihA, ihB⟩ := ih now heapRest (itemsPop kh items)
            have hrem : remBudget maxr k (itemsPop kh items) ≤ remBudget maxr k items := by
              by_cases hkk : kh = k
              · have hg : itemsGet k (itemsPop kh items) = none := by
                  rw [itemsGet_itemsPop, if_pos hkk]
                unfold remBudget
                rw [hg]
                exact Nat.zero_le _
              · have hg := itemsGet_itemsPop k kh items
                rw [if_neg hkk] at hg
                rw [remBudget_of_get hg]
            constructor
            · exact Nat.le_trans ihA hrem
            · intro hnone
              apply ihB
              by_cases hkk : kh = k
              · rw [itemsGet_itemsPop, if_pos hkk]
              · rw [itemsGet_itemsPop, if_neg hkk]
                exact hnone
          · have hred : tickLoop maxr rto (fuel + 1) now ((d, kh) :: heapRest) items =
                ((tickLoop maxr rto fuel now (heapPush (now + rto) kh heapRest)
                    (itemsSet kh { cur with retries := cur.retries + 1 } items)).1,
                 (tickLoop maxr rto fuel now (heapPush (now + rto) kh heapRest)
                    (itemsSet kh { cur with retries := cur.retries + 1 } items)).2.1,
                 (kh, cur.payload) ::
                   (tickLoop maxr rto fuel now (heapPush (now + rto) kh heapRest)
                     (itemsSet kh { cur with retries := cur.retries + 1 } items)).2.2) := by
              simp only [tickLoop, if_pos hdue, hcur, if_neg hex]
            have hS : (tickLoop maxr rto (fuel + 1) now ((d, kh) :: heapRest) items).2.2 =
                (kh, cur.payload) ::
                  (tickLoop maxr rto fuel now (heapPush (now + rto) kh heapRest)
                    (itemsSet kh { cur with retries := cur.retries + 1 } items)).2.2 := by
              simp only [hred]
            have hM : (tickLoop maxr rto (fuel + 1) now ((d, kh) :: heapRest) items).2.1 =
                (tickLoop maxr rto fuel now (heapPush (now + rto) kh heapRest)
                  (itemsSet kh { cur with retries := cur.retries + 1 } items)).2.1 := by
              simp only [hred]
            rw [hS, hM]
            obtain ⟨ihA, ihB⟩ := ih now (heapPush (now + rto) kh heapRest)
              (itemsSet kh { cur with retries := cur.retries + 1 } items)
            by_cases hkk : kh = k
            · constructor
              · have hkb : (kh == k) = true := by
                  simp [hkk]
                rw [kCount_cons, if_pos hkb]
                have h1 : remBudget maxr k
                    (itemsSet kh { cur with retries := cur.retries + 1 } items) =
                    maxr - (cur.retries + 1) := by
                  unfold remBudget
                  rw [itemsGet_itemsSet, if_pos hkk]
                have h2 : remBudget maxr k items = maxr - cur.retries := by
                  unfold remBudget
                  rw [hkk] at hcur
                  rw [hcur]
                rw [h1] at ihA
                rw [h2]
                omega
              · intro hnone
                rw [hkk] at hcur
                rw [hnone] at hcur
                cases hcur
            · have hget : itemsGet k
                  (itemsSet kh { cur with retries := cur.retries + 1 } items) =
                  itemsGet k items := by
                rw [itemsGet_itemsSet, if_neg hkk]
              have hkb : ¬ (kh == k) = true := by
                simpa using hkk
              constructor
              · rw [kCount_cons, if_neg hkb]
                have h3 : remBudget maxr k
                    (itemsSet kh { cur with retries := cur.retries + 1 } items) =
                    remBudget maxr k items := remBudget_of_get hget
                omega
              · intro hnone
                have hnone1 : itemsGet k
                    (itemsSet kh { cur with retries := cur.retries + 1 } items) = none := by
                  rw [hget]
                  exact hnone
                obtain ⟨f1, f2⟩ := ihB hnone1
                refine ⟨f1, ?_⟩
                rw [kCount_cons, if_neg hkb, f2]
      · have hred : tickLoop maxr rto (fuel + 1) now ((d, kh) :: heapRest) items =
            ((d, kh) :: heapRest, items, []) := by
          simp only [tickLoop, if_neg hdue]
        rw [hred]
        exact ⟨by simp [kCount_nil], fun h => ⟨h, rfl⟩⟩

/-- A record whose retries have reached `max_retries` is never
retransmitted by the `tick` loop: it either survives untouched or is
silently dropped from `items`. -/
theorem tickLoop_exhausted (maxr rto : Nat) (k : String) (it : RtxItem)
    (hex : maxr ≤ it.retries) :
    ∀ (fuel now : Nat) (heap : List (Nat × String))
      (items : List (String × RtxItem)),
      itemsGet k items = some it →
      kCount k (tickLoop maxr rto fuel now heap items).2.2 = 0 ∧
      (itemsGet k (tickLoop maxr rto fuel now heap items).2.1 = some it ∨
       itemsGet k (tickLoop maxr rto fuel now heap items).2.1 = none) := by
  intro fuel
  induction fuel with
  | zero =>
    intro now heap items hk
    exact ⟨rfl, Or.inl hk⟩
  | succ fuel ih =>
    intro now heap items hk
    cases heap with
    | nil =>
      exact ⟨rfl, Or.inl hk⟩
    | cons hd heapRest =>
      obtain ⟨d, kh⟩ := hd
      by_cases hdue : d ≤ now
      · cases hcur : itemsGet kh items with
        | none =>
          have hred : tickLoop maxr rto (fuel + 1) now ((d, kh) :: heapRest) items =
              tickLoop maxr rto fuel now heapRest items := by
            simp only [tickLoop, if_pos hdue, hcur]
          rw [hred]
          exact ih now heapRest items hk
        | some cur =>
          by_cases hex2 : cur.retries ≥ maxr
          · have hred : tickLoop maxr rto (fuel + 1) now ((d, kh) :: heapRest) items =
                tickLoop maxr rto fuel now heapRest (itemsPop kh items) := by
              simp only [tickLoop, if_pos hdue, hcur, if_pos hex2]
            rw [hred]
            by_cases hkk : kh = k
            · have hnone : itemsGet k (itemsPop kh items) = none := by
                rw [itemsGet_itemsPop, if_pos hkk]
              obtain ⟨f1, f2⟩ :=
                (tickLoop_k_budget maxr rto k fuel now heapRest
                  (itemsPop kh items)).2 hnone
              exact ⟨f2, Or.inr f1⟩
            · have hget : itemsGet k (itemsPop kh items) = itemsGet k items := by
                rw [itemsGet_itemsPop, if_neg hkk]
              exact ih now heapRest (itemsPop kh items) (by rw [hget]; exact hk)
          · by_cases hkk : kh = k
            · rw [hkk] at hcur
              rw [hk] at hcur
              cases hcur
              exact absurd hex hex2
            · have hred : tickLoop maxr rto (fuel + 1) now ((d, kh) :: heapRest) items =
                  ((tickLoop maxr rto fuel now (heapPush (now + rto) kh heapRest)
                      (itemsSet kh { cur with retries := cur.retries + 1 } items)).1,
                   (tickLoop maxr rto fuel now (heapPush (now + rto) kh heapRest)
                      (itemsSet kh { cur with retries := cur.retries + 1 } items)).2.1,
                   (kh, cur.payload) ::
                     (tickLoop maxr rto fuel now (heapPush (now + rto) kh heapRest)
                       (itemsSet kh { cur with retries := cur.retries + 1 } items)).2.2) := by
                simp only [tickLoop, if_pos hdue, hcur, if_neg hex2]
              rw [hred]
              have hget : itemsGet k
                  (itemsSet kh { cur with retries := cur.retries + 1 } items) =
                  itemsGet k items := by
                rw [itemsGet_itemsSet, if_neg hkk]
              obtain ⟨f1, f2⟩ := ih now (heapPush (now + rto) kh heapRest)
                (itemsSet kh { cur with retries := cur.retries + 1 } items)
                (by rw [hget]; exact hk)
              have hkb : ¬ (kh == k) = true := by
                simpa using hkk
              refine ⟨?_, f2⟩
              rw [kCount_cons, if_neg hkb, f1]
      · have hred : tickLoop maxr rto (fuel + 1) now ((d, kh) :: heapRest) items =
            ((d, kh) :: heapRest, items, []) := by
          simp only [tickLoop, if_neg hdue]
        rw [hred]
        exact ⟨rfl, Or.inl hk⟩

theorem tick_items (q : RetransmitQueue) (now : Nat) :
    (q.tick now).1.items =
      (tickLoop q.max_retries q.rto (q.heap.length * (q.max_retries + 2) + 1)
        now q.heap q.items).2.1 := rfl

theorem tick_sends (q : RetransmitQueue) (now : Nat) :
    (q.tick now).2 =
      (tickLoop q.max_retries q.rto (q.heap.length * (q.max_retries + 2) + 1)
        now q.heap q.items).2.2 := rfl

/-- A key absent from `items` that is never re-added is never
retransmitted and stays absent, across any call sequence. -/
theorem runQueue_no_k (k : String) :
    ∀ (ops : List QOp) (q : RetransmitQueue),
      (∀ op ∈ ops, isAddOf k op = false) →
      itemsGet k q.items = none →
      kCount k (runQueue q ops).2 = 0 ∧
      itemsGet k (runQueue q ops).1.items = none := by
  intro ops
  induction ops with
  | nil =>
    intro q _ hn
    exact ⟨rfl, hn⟩
  | cons op rest ih =>
    intro q hok hn
    have hrest : ∀ op ∈ rest, isAddOf k op = false :=
      fun op h => hok op (List.mem_cons_of_mem _ h)
    cases op with
    | add now k' p =>
      have hne : ¬ (k' == k) = true := by
        have := hok _ (List.mem_cons_self _ _)
        simp only [isAddOf] at this
        simp [this]
      have hne' : k' ≠ k := by
        simpa using hne
      have hrun : runQueue q (QOp.add now k' p :: rest) =
          runQueue (q.add now k' p) rest := rfl
      rw [hrun]
      apply ih _ hrest
      rw [add_items, itemsGet_itemsSet, if_neg hne']
      exact hn
    | ack k' =>
      have hrun : runQueue q (QOp.ack k' :: rest) = runQueue (q.ack k') rest := rfl
      rw [hrun]
      apply ih _ hrest
      rw [ack_items, itemsGet_itemsPop]
      by_cases hkk : k' = k
      · rw [if_pos hkk]
      · rw [if_neg hkk]
        exact hn
    | tick now =>
      have hrun : runQueue q (QOp.tick now :: rest) =
          ((runQueue (q.tick now).1 rest).1,
            (q.tick now).2 ++ (runQueue (q.tick now).1 rest).2) := rfl
      rw [hrun]
      obtain ⟨t1, t2⟩ :=
        (tickLoop_k_budget q.max_retries q.rto k
          (q.heap.length * (q.max_retries + 2) + 1) now q.heap q.items).2 hn
      have htn : itemsGet k (q.tick now).1.items = none := by
        rw [tick_items]
        exact t1
      obtain ⟨r1, r2⟩ := ih (q.tick now).1 hrest htn
      constructor
      · show kCount k ((q.tick now).2 ++ (runQueue (q.tick now).1 rest).2) = 0
        rw [kCount_append, r1, tick_sends, t2]
      · exact r2

/-- Across any call sequence that adds key `k` at most once, `k` is
retransmitted at most `max_retries` times. -/
theorem runQueue_k_budget (k : String) (maxr : Nat) :
    ∀ (ops : List QOp) (q : RetransmitQueue), q.max_retries = maxr →
      ((ops.filter (isAddOf k)).length = 0 →
        kCount k (runQueue q ops).2 +
          remBudget maxr k (runQueue q ops).1.items ≤
          remBudget maxr k q.items) ∧
      ((ops.filter (isAddOf k)).length ≤ 1 → itemsGet k q.items = none →
        kCount k (runQueue q ops).2 ≤ maxr) := by
  intro ops
  induction ops with
  | nil =>
    intro q hmax
    constructor
    · intro _
      show kCount k ([] : List (String × List Nat)) +
        remBudget maxr k q.items ≤ remBudget maxr k q.items
      rw [kCount_nil]
      omega
    · intro _ _
      show kCount k ([] : List (String × List Nat)) ≤ maxr
      rw [kCount_nil]
      exact Nat.zero_le _
  | cons op rest ih =>
    intro q hmax
    cases op with
    | add now k' p =>
      have hrun : runQueue q (QOp.add now k' p :: rest) =
          runQueue (q.add now k' p) rest := rfl
      have hmax' : (q.add now k' p).max_retries = maxr := hmax
      by_cases hkk : (k' == k) = true
      · have hk'k : k' = k := by
          simpa using hkk
        have hfil : List.filter (isAddOf k) (QOp.add now k' p :: rest) =
            QOp.add now k' p :: rest.filter (isAddOf k) := by
          simp only [List.filter, isAddOf, hkk]
        constructor
        · intro hlen
          rw [hfil] at hlen
          cases hlen
        · intro hlen hnone
          rw [hfil] at hlen
          have hrest0 : (rest.filter (isAddOf k)).length = 0 := by
            simp only [List.length_cons] at hlen
            omega
          have hA := (ih (q.add now k' p) hmax').1 hrest0
          have hset : remBudget maxr k (q.add now k' p).items = maxr := by
            unfold remBudget
            rw [add_items, itemsGet_itemsSet, if_pos hk'k]
            rfl
          rw [hrun]
          rw [hset] at hA
          omega
      · have hf : isAddOf k (QOp.add now k' p) = false := by
          simp only [isAddOf]
          simpa using hkk
        have hk'k : k' ≠ k := by
          simpa using hkk
        have hfil : List.filter (isAddOf k) (QOp.add now k' p :: rest) =
            rest.filter (isAddOf k) := by
          simp only [List.filter, hf]
        have hget : itemsGet k (q.add now k' p).items = itemsGet k q.items := by
          rw [add_items, itemsGet_itemsSet, if_neg hk'k]
        constructor
        · intro hlen
          rw [hfil] at hlen
          have hA := (ih (q.add now k' p) hmax').1 hlen
          rw [hrun]
          rw [remBudget_of_get hget] at hA
          exact hA
        · intro hlen hnone
          rw [hfil] at hlen
          rw [hrun]
          exact (ih (q.add now k' p) hmax').2 hlen (by rw [hget]; exact hnone)
    | ack k' =>
      have hrun : runQueue q (QOp.ack k' :: rest) = runQueue (q.ack k') rest := rfl
      have hmax' : (q.ack k').max_retries = maxr := hmax
      have hfil : List.filter (isAddOf k) (QOp.ack k' :: rest) =
          rest.filter (isAddOf k) := by
        simp only [List.filter, isAddOf]
      have hrem : remBudget maxr k (q.ack k').items ≤ remBudget maxr k q.items := by
        rw [ack_items]
        by_cases hkk : k' = k
        · have hg : itemsGet k (itemsPop k' q.items) = none := by
            rw [itemsGet_itemsPop, if_pos hkk]
          unfold remBudget
          rw [hg]
          exact Nat.zero_le _
        · have hg := itemsGet_itemsPop k k' q.items
          rw [if_neg hkk] at hg
          rw [remBudget_of_get hg]
      constructor
      · intro hlen
        rw [hfil] at hlen
        have hA := (ih (q.ack k') hmax').1 hlen
        rw [hrun]
        omega
      · intro hlen hnone
        rw [hfil] at hlen
        rw [hrun]
        refine (ih (q.ack k') hmax').2 hlen ?_
        rw [ack_items, itemsGet_itemsPop]
        by_cases hkk : k' = k
        · rw [if_pos hkk]
        · rw [if_neg hkk]
          exact hnone
    | tick now =>
      have hrun : runQueue q (QOp.tick now :: rest) =
          ((runQueue (q.tick now).1 rest).1,
            (q.tick now).2 ++ (runQueue (q.tick now).1 rest).2) := rfl
      have hmax' : (q.tick now).1.max_retries = maxr := hmax
      have hfil : List.filter (isAddOf k) (QOp.tick now :: rest) =
          rest.filter (isAddOf k) := by
        simp only [List.filter, isAddOf]
      obtain ⟨tA, tB⟩ := tickLoop_k_budget q.max_retries q.rto k
        (q.heap.length * (q.max_retries + 2) + 1) now q.heap q.items
      rw [hmax] at tA
      have htA : kCount k (q.tick now).2 +
          remBudget maxr k (q.tick now).1.items ≤ remBudget maxr k q.items := by
        rw [tick_sends, tick_items, hmax]
        exact tA
      constructor
      · intro hlen
        rw [hfil] at hlen
        have hA := (ih (q.tick now).1 hmax').1 hlen
        rw [hrun]
        show kCount k ((q.tick now).2 ++ (runQueue (q.tick now).1 rest).2) +
          remBudget maxr k (runQueue (q.tick now).1 rest).1.items ≤
          remBudget maxr k q.items
        rw [kCount_append]
        omega
      · intro hlen hnone
        rw [hfil] at hlen
        obtain ⟨t1, t2⟩ := tB hnone
        have htn : itemsGet k (q.tick now).1.items = none := by
          rw [tick_items]
          exact t1
        have hts : kCount k (q.tick now).2 = 0 := by
          rw [tick_sends]
          exact t2
        have hB := (ih (q.tick now).1 hmax').2 hlen htn
        rw [hrun]
        show kCount k ((q.tick now).2 ++ (runQueue (q.tick now).1 rest).2) ≤ maxr
        rw [kCount_append, hts]
        omega

/-- C4 counterexample: `tick` has no failure channel (the Python method
returns `None` and raises nothing), and on a queue holding a record
whose retries have reached `max_retries = 2` a due tick merely pops the
record and returns normally — empty heap, empty items, no sends, no
failure surfaced to the caller — exactly as a tick with nothing due
would. -/
theorem tick_exhausted_continues_normally :
    RetransmitQueue.tick
      { rto := 1, max_retries := 2, heap := [(0, "k")],
        items := [("k", { payload := [9], retries := 2 })] } 0 =
      ({ rto := 1, max_retries := 2, heap := [], items := [] }, []) := by
  decide

/-- C4 amended: when `tick` encounters a record whose retry count has
reached `max_retries`, it never retransmits it and either leaves it
untouched (entry not yet due) or silently removes it from the queue;
nothing is reported to the caller and the transfer is not terminated. -/
theorem tick_drops_exhausted_silently (q : RetransmitQueue) (now : Nat)
    (k : String) (it : RtxItem) (h1 : itemsGet k q.items = some it)
    (h2 : q.max_retries ≤ it.retries) :
    kCount k (q.tick now).2 = 0 ∧
    (itemsGet k (q.tick now).1.items = some it ∨
     itemsGet k (q.tick now).1.items = none) := by
  obtain ⟨f1, f2⟩ := tickLoop_exhausted q.max_retries q.rto k it h2
    (q.heap.length * (q.max_retries + 2) + 1) now q.heap q.items h1
  refine ⟨?_, ?_⟩
  · rw [tick_sends]
    exact f1
  · rw [tick_items]
    exact f2

/-- Witness for the amended C4 theorem: the queue from the
counterexample, whose exhausted record is dropped without a single
retransmission. -/
theorem tick_drops_exhausted_silently_witness :
    itemsGet "k" [("k", RtxItem.mk [9] 2)] = some (RtxItem.mk [9] 2) ∧
    (2 : Nat) ≤ 2 ∧
    kCount "k" ((RetransmitQueue.mk 1 2 [(0, "k")]
      [("k", RtxItem.mk [9] 2)]).tick 0).2 = 0 :=
  ⟨by decide, by decide,
   (tick_drops_exhausted_silently
     (RetransmitQueue.mk 1 2 [(0, "k")] [("k", RtxItem.mk [9] 2)]) 0 "k"
     (RtxItem.mk [9] 2) (by decide) (by decide)).1⟩

/-- C10: over any call sequence against a fresh retransmit queue,
(1) after `ack(k)`, provided `k` is never added again, no later `tick`
ever retransmits `k`; and (2) if `k` is added at most once over the
queue's lifetime, `tick` retransmits `k` at most `max_retries` times. -/
theorem retransmit_ack_permanence_and_retry_bound (rto maxr : Nat)
    (k : String) (ops1 ops2 ops : List QOp)
    (h2 : ∀ op ∈ ops2, isAddOf k op = false)
    (h1 : (ops.filter (isAddOf k)).length ≤ 1) :
    kCount k (runQueue ((runQueue (initQueue rto maxr) ops1).1.ack k) ops2).2 = 0 ∧
    kCount k (runQueue (initQueue rto maxr) ops).2 ≤ maxr := by
  constructor
  · have hnone : itemsGet k ((runQueue (initQueue rto maxr) ops1).1.ack k).items =
        none := by
      rw [ack_items, itemsGet_itemsPop, if_pos rfl]
    exact (runQueue_no_k k ops2 _ h2 hnone).1
  · exact (runQueue_k_budget k maxr ops (initQueue rto maxr) rfl).2 h1 rfl

/-- Witness for the C10 theorem: key "k" is added once and acked; the
two ticks after the ack send nothing, and a run with three due ticks
retransmits at most `max_retries = 2` times. -/
theorem retransmit_ack_permanence_and_retry_bound_witness :
    (∀ op ∈ [QOp.tick 5, QOp.tick 10], isAddOf "k" op = false) ∧
    (([QOp.add 0 "k" [9], QOp.tick 1, QOp.tick 2,
        QOp.tick 3].filter (isAddOf "k")).length ≤ 1) ∧
    kCount "k" (runQueue ((runQueue (initQueue 1 2) [QOp.add 0 "k" [9]]).1.ack "k")
      [QOp.tick 5, QOp.tick 10]).2 = 0 ∧
    kCount "k" (runQueue (initQueue 1 2)
      [QOp.add 0 "k" [9], QOp.tick 1, QOp.tick 2, QOp.tick 3]).2 ≤ 2 :=
  ⟨by decide, by decide,
   (retransmit_ack_permanence_and_retry_bound 1 2 "k" [QOp.add 0 "k" [9]]
     [QOp.tick 5, QOp.tick 10]
     [QOp.add 0 "k" [9], QOp.tick 1, QOp.tick 2, QOp.tick 3]
     (by decide) (by decide)).1,
   (retransmit_ack_permanence_and_retry_bound 1 2 "k" [QOp.add 0 "k" [9]]
     [QOp.tick 5, QOp.tick 10]
     [QOp.add 0 "k" [9], QOp.tick 1, QOp.tick 2, QOp.tick 3]
     (by decide) (by decide)).2⟩

end SRFT
